import Mathlib

/-!
Plat: movement and block placement core of `src/app.jsx`

A shallow embedding of the key handling, the per-frame controller of `Player`
and the `onPlace` handler of `App`.

Modelling conventions.
* JavaScript numbers are modelled by the rationals they denote (every finite
  double is a rational); `NaN` and the infinities are not represented. A number
  `q` is a double when `toDouble q = q`, where `toDouble` rounds a rational to
  binary64, to nearest with ties to even. The sums and products of `candidate`
  are rounded that way (`jsAdd`, `jsMul`). In `frame` every operand is `0` or
  `4`, so each of its sums is a double already and is written without rounding.
* `Math.round` is the ECMAScript nearest-integer function with ties going
  towards `+∞`, i.e. `⌊q + 1/2⌋`.
* A block position `[x, y, z]` is a triple of integers: the seeded entries are
  integer literals and every appended entry is a triple of `Math.round` results.
* The object behind `keys.current` is a finite map from `KeyboardEvent.code`
  strings to booleans; a missing property reads as `undefined`, which is falsy.
  Codes range over `KeyboardEvent.code` values, none of which names a property
  that `{}` inherits from `Object.prototype`.
* Property access on `null` and calling `null` throw a `TypeError`; handlers
  therefore return `Except JsError _`.
-/

namespace Plat

/-! ## Data model -/

/-- A three component vector of numbers (`THREE.Vector3`, or an array `[x, y, z]`). -/
structure Vec3 where
  x : ℚ
  y : ℚ
  z : ℚ
  deriving DecidableEq

/-- One entry of the `blocks` state: the array `[x, y, z]` of a lattice cell. -/
abbrev BlockPosition := Int × Int × Int

/-- The `blocks` state of `App`. -/
abbrev BlockList := List BlockPosition

/-- The mesh a React ref points at; only its `position` is read. -/
structure Object3D where
  position : Vec3
  deriving DecidableEq

/-- A React ref to the player mesh: `current` is `null` until the mesh is mounted. -/
structure PlayerRef where
  current : Option Object3D
  deriving DecidableEq

/-- Run-time errors of the host language. -/
inductive JsError where
  | typeError
  deriving DecidableEq

/-- The function value `Player` hands to `setCanPlaceBlock` (line 69):
`() => (fn) => fn(ref)`, a closure over the player ref. -/
structure RegisteredFn where
  ref : PlayerRef
  deriving DecidableEq

/-! ## Numbers -/

/-- The integer nearest to `r`, a tie going to the even one. -/
def roundHalfEven (r : ℚ) : Int :=
  let n := ⌊r⌋
  if r - n < 1 / 2 then n
  else if 1 / 2 < r - n then n + 1
  else if n % 2 = 0 then n else n + 1

/-- The binary64 exponent of `q`: the `e` with `2 ^ e ≤ |q| < 2 ^ (e + 1)`, and
`-1022` for the subnormal range (and for zero). -/
def binade (q : ℚ) : Int := max (Int.log 2 |q|) (-1022)

/-- The spacing of the doubles around `q` (53 bit significand). -/
def ulp (q : ℚ) : ℚ := 2 ^ (binade q - 52)

/-- The double nearest to `q`, a tie going to the even significand: the rounding
every arithmetic operation of the language applies to its exact result.
Overflow to an infinity is not modelled. -/
def toDouble (q : ℚ) : ℚ := roundHalfEven (q / ulp q) * ulp q

/-- The number `q` is a double. -/
def IsDouble (q : ℚ) : Prop := toDouble q = q

/-- The operator `+` on numbers. -/
def jsAdd (a b : ℚ) : ℚ := toDouble (a + b)

/-- The operator `*` on numbers. -/
def jsMul (a b : ℚ) : ℚ := toDouble (a * b)

/-- The three components of a vector are doubles. -/
def Vec3.IsDouble (v : Vec3) : Prop := Plat.IsDouble v.x ∧ Plat.IsDouble v.y ∧ Plat.IsDouble v.z

/-- The double written `-0.5000000000000001`, that is `-(2 ^ 52 + 1) / 2 ^ 53`. -/
def belowHalf : ℚ := -4503599627370497 / 9007199254740992

/-- The double `2 ^ 54 + 8`. -/
def farAway : ℚ := 18014398509481992

/-! ## Placement (`App`, lines 80-111) -/

/-- The initial value of the `blocks` state (lines 81-87). -/
def initialBlocks : BlockList :=
  [(-1, 0, 0), (1, 0, 0), (3, 0, -1), (-3, 0, -2), (0, 1, -5)]

/-- `Math.round`: the nearest integer, a tie going to the larger one. -/
def mathRound (q : ℚ) : Int := ⌊q + 1 / 2⌋

/-- `new THREE.Vector3(0, 0, -1)` (line 97). -/
def forward : Vec3 := ⟨0, 0, -1⟩

/-- The `candidate` array of lines 98-102. -/
def candidate (pos : Vec3) : BlockPosition :=
  (mathRound (jsAdd pos.x (jsMul forward.x 2)),
   mathRound (jsAdd pos.y 0),
   mathRound (jsAdd pos.z (jsMul forward.z 2)))

/-- The function passed to `setBlocks` (lines 103-109). -/
def updater (candidate : BlockPosition) (b : BlockList) : BlockList :=
  let found := b.any fun bb =>
    bb.1 == candidate.1 && bb.2.1 == candidate.2.1 && bb.2.2 == candidate.2.2
  if found then b else b ++ [candidate]

/-- Reading `.position` of `playerRef.current` (line 96); on `null` it throws. -/
def readPosition : Option Object3D → Except JsError Vec3
  | none => .error .typeError
  | some mesh => .ok mesh.position

/-- The arrow function `(playerRef) => { ... }` of lines 94-110, as a transformer
of the `blocks` state: `setBlocks(f)` replaces the state `b` by `f b`. -/
def placeCallback (playerRef : PlayerRef) (blocks : BlockList) : Except JsError BlockList :=
  if playerRef.current.isNone then .ok blocks
  else do
    let pos ← readPosition playerRef.current
    .ok (updater (candidate pos) blocks)

/-- The inner closure `(fn) => fn(ref)` of line 69: it runs `fn` on the player ref. -/
def handOver (ref : PlayerRef) (fn : PlayerRef → BlockList → Except JsError BlockList)
    (blocks : BlockList) : Except JsError BlockList :=
  fn ref blocks

/-- The call `canPlaceRef.current(fn)` of line 94. Calling `null` throws. The
stored function is the parameterless arrow `() => (fn) => fn(ref)`: the call
evaluates its body, which only builds the inner closure `handOver ref`; the
argument `fn` is bound to no parameter and the returned closure is dropped by
the caller, so the `blocks` state is left as it is. -/
def callCanPlace (current : Option RegisteredFn)
    (_fn : PlayerRef → BlockList → Except JsError BlockList)
    (blocks : BlockList) : Except JsError BlockList :=
  match current with
  | none => .error .typeError
  | some _ => .ok blocks

/-- The `onPlace` handler (lines 92-111); `canPlaceRef` is the value of
`canPlaceRef.current`, `null` until `Player` has registered its function. -/
def onPlace (canPlaceRef : Option RegisteredFn) (blocks : BlockList) :
    Except JsError BlockList :=
  if canPlaceRef.isNone then .ok blocks
  else callCanPlace canPlaceRef placeCallback blocks

/-- `setCanPlaceBlock(() => (fn) => fn(ref))` (lines 69 and 90): the new value of
`canPlaceRef.current`. -/
def setCanPlaceBlock (ref : PlayerRef) : Option RegisteredFn := some ⟨ref⟩

/-- One placement step on the `blocks` state: a pointer-down that runs `onPlace`
with the current content of `canPlaceRef`, or a run of the placement callback of
lines 94-110 on a player ref. -/
inductive Trigger where
  | pointerDown (canPlaceRef : Option RegisteredFn)
  | callback (playerRef : PlayerRef)
  deriving DecidableEq

/-- The effect of one placement step. -/
def Trigger.run : Trigger → BlockList → Except JsError BlockList
  | .pointerDown canPlaceRef, blocks => onPlace canPlaceRef blocks
  | .callback playerRef, blocks => handOver playerRef placeCallback blocks

/-- The effect of a sequence of placement steps, oldest first; an error stops it. -/
def runTriggers : List Trigger → BlockList → Except JsError BlockList
  | [], blocks => .ok blocks
  | t :: ts, blocks =>
    match t.run blocks with
    | .ok blocks' => runTriggers ts blocks'
    | .error e => .error e

/-! ## Keys and the per-frame controller (`Player`, lines 41-66) -/

/-- The object in `keys.current`: a property is absent (`none`) or a boolean. -/
def KeyState := String → Option Bool

/-- The initial `{}` of line 41. -/
def KeyState.empty : KeyState := fun _ => none

/-- The assignment `keys.current[code] = value`. -/
def KeyState.set (ks : KeyState) (code : String) (value : Bool) : KeyState :=
  fun k => if k = code then some value else ks k

/-- A keyboard event with its `code`. -/
inductive KeyEvent where
  | keydown (code : String)
  | keyup (code : String)
  deriving DecidableEq

/-- The `code` of an event. -/
def KeyEvent.code : KeyEvent → String
  | .keydown c => c
  | .keyup c => c

/-- The listeners `down` and `up` of lines 44-45. -/
def handleKey (ks : KeyState) : KeyEvent → KeyState
  | .keydown c => ks.set c true
  | .keyup c => ks.set c false

/-- The key state after a sequence of events, oldest first. -/
def applyEvents (ks : KeyState) (evs : List KeyEvent) : KeyState :=
  evs.foldl handleKey ks

/-- The truthiness test `keys.current[code]` of an `if` (lines 58-62). -/
def isPressed (ks : KeyState) (code : String) : Bool :=
  match ks code with
  | some true => true
  | _ => false

/-- What one run of the `useFrame` callback asks of the physics api. -/
structure FrameResult where
  impulses : List (Vec3 × Vec3)
  velocity : Vec3
  deriving DecidableEq

/-- The `useFrame` callback (lines 54-66) on the key state and the cached
`velocity.current`: the `applyImpulse` calls made, in order, and the arguments
of `api.velocity.set`. -/
def frame (keys : KeyState) (velocity : Vec3) : FrameResult :=
  let speed : ℚ := 4
  let impulse : Vec3 := ⟨0, 0, 0⟩
  let impulse := if isPressed keys "KeyW" then { impulse with z := impulse.z - speed } else impulse
  let impulse := if isPressed keys "KeyS" then { impulse with z := impulse.z + speed } else impulse
  let impulse := if isPressed keys "KeyA" then { impulse with x := impulse.x - speed } else impulse
  let impulse := if isPressed keys "KeyD" then { impulse with x := impulse.x + speed } else impulse
  let impulses : List (Vec3 × Vec3) :=
    if isPressed keys "Space" && decide (|velocity.y| < 0.05) then [(⟨0, 5, 0⟩, ⟨0, 0, 0⟩)] else []
  { impulses := impulses, velocity := ⟨impulse.x, velocity.y, impulse.z⟩ }

/-! ## Collision shapes (lines 8-9 and 36-40) -/

/-- The `args` of a block's box body: its full extents. -/
def blockArgs : Vec3 := ⟨1, 1, 1⟩

/-- The `args` of the player's sphere body: its radius. -/
def playerRadius : ℚ := 0.5

/-- The point `q` lies in the box body of the block at cell `c`. -/
def inBlock (c : BlockPosition) (q : Vec3) : Prop :=
  |q.x - c.1| ≤ blockArgs.x / 2 ∧ |q.y - c.2.1| ≤ blockArgs.y / 2 ∧ |q.z - c.2.2| ≤ blockArgs.z / 2

/-- The point `q` lies in the player's sphere centred at `pos`. -/
def inPlayer (pos : Vec3) (q : Vec3) : Prop :=
  (q.x - pos.x) ^ 2 + (q.y - pos.y) ^ 2 + (q.z - pos.z) ^ 2 ≤ playerRadius ^ 2

/-- The events of a sequence that carry the code `c`, oldest first. -/
def eventsFor (evs : List KeyEvent) (c : String) : List KeyEvent :=
  evs.filter fun e => e.code == c

/-! ## Auxiliary facts -/

theorem mathRound_le (q : ℚ) : (mathRound q : ℚ) ≤ q + 1 / 2 := by
  unfold mathRound
  exact Int.floor_le _

theorem lt_mathRound_add_one (q : ℚ) : q + 1 / 2 < (mathRound q : ℚ) + 1 := by
  unfold mathRound
  exact Int.lt_floor_add_one _

theorem mathRound_eq_iff (q : ℚ) (n : Int) :
    mathRound q = n ↔ (n : ℚ) ≤ q + 1 / 2 ∧ q + 1 / 2 < (n : ℚ) + 1 := by
  unfold mathRound
  exact Int.floor_eq_iff

theorem abs_mathRound_sub_le (q : ℚ) : |(mathRound q : ℚ) - q| ≤ 1 / 2 := by
  have h1 := mathRound_le q
  have h2 := lt_mathRound_add_one q
  rw [abs_le]
  constructor <;> linarith

theorem mathRound_nearest (q : ℚ) (n : Int) : |(mathRound q : ℚ) - q| ≤ |(n : ℚ) - q| := by
  have h1 := mathRound_le q
  have h2 := lt_mathRound_add_one q
  have h3 := abs_mathRound_sub_le q
  rcases lt_trichotomy n (mathRound q) with h | h | h
  · have h4 : (n : ℚ) + 1 ≤ (mathRound q : ℚ) := by exact_mod_cast h
    have h5 : (1 : ℚ) / 2 ≤ |(n : ℚ) - q| := by
      rw [le_abs]
      right
      linarith
    linarith
  · rw [h]
  · have h4 : (mathRound q : ℚ) + 1 ≤ (n : ℚ) := by exact_mod_cast h
    have h5 : (1 : ℚ) / 2 ≤ |(n : ℚ) - q| := by
      rw [le_abs]
      left
      linarith
    linarith

theorem abs_roundHalfEven_sub_le (r : ℚ) : |(roundHalfEven r : ℚ) - r| ≤ 1 / 2 := by
  have h1 := Int.floor_le r
  have h2 := Int.lt_floor_add_one r
  unfold roundHalfEven
  simp only
  rw [abs_le]
  split_ifs with ha hb hc <;> push_cast <;> constructor <;> linarith

theorem roundHalfEven_intCast (n : Int) : roundHalfEven (n : ℚ) = n := by
  unfold roundHalfEven
  simp

theorem ulp_pos (q : ℚ) : 0 < ulp q := by
  unfold ulp
  positivity

theorem abs_toDouble_sub_le (q : ℚ) : |toDouble q - q| ≤ ulp q / 2 := by
  have hu := ulp_pos q
  have h := abs_roundHalfEven_sub_le (q / ulp q)
  have e : toDouble q - q = ((roundHalfEven (q / ulp q) : ℚ) - q / ulp q) * ulp q := by
    unfold toDouble
    field_simp
  rw [e, abs_mul, abs_of_pos hu]
  calc |(roundHalfEven (q / ulp q) : ℚ) - q / ulp q| * ulp q ≤ 1 / 2 * ulp q :=
        mul_le_mul_of_nonneg_right h hu.le
    _ = ulp q / 2 := by ring

theorem toDouble_zero : toDouble 0 = 0 := by
  unfold toDouble
  simp [roundHalfEven]

theorem binade_eq {q : ℚ} {e : Int} (h1 : (2 : ℚ) ^ e ≤ |q|) (h2 : |q| < (2 : ℚ) ^ (e + 1))
    (he : -1022 ≤ e) : binade q = e := by
  have hpos : 0 < |q| := lt_of_lt_of_le (by positivity) h1
  have hlog : Int.log 2 |q| = e := by
    apply le_antisymm
    · have := (Int.lt_zpow_iff_log_lt (b := 2) (by norm_num) hpos).mp (by exact_mod_cast h2)
      omega
    · exact (Int.zpow_le_iff_le_log (b := 2) (by norm_num) hpos).mp (by exact_mod_cast h1)
  unfold binade
  rw [hlog]
  exact max_eq_left he

theorem toDouble_eq {q : ℚ} {e : Int} (h1 : (2 : ℚ) ^ e ≤ |q|) (h2 : |q| < (2 : ℚ) ^ (e + 1))
    (he : -1022 ≤ e) :
    toDouble q = roundHalfEven (q / 2 ^ (e - 52)) * 2 ^ (e - 52) := by
  unfold toDouble ulp
  rw [binade_eq h1 h2 he]

theorem ulp_le_half {q : ℚ} (h : |q| < 2 ^ 52) : ulp q ≤ 1 / 2 := by
  have hb : binade q ≤ 51 := by
    unfold binade
    apply max_le _ (by norm_num)
    rcases eq_or_lt_of_le (abs_nonneg q) with h0 | hpos
    · rw [← h0, Int.log_zero_right]
      norm_num
    · have := (Int.lt_zpow_iff_log_lt (b := 2) (R := ℚ) (x := 52) (by norm_num) hpos).mp
        (by exact_mod_cast h)
      omega
  unfold ulp
  calc (2 : ℚ) ^ (binade q - 52) ≤ 2 ^ (-1 : Int) :=
        zpow_le_zpow_right₀ (by norm_num) (by omega)
    _ = 1 / 2 := by norm_num

theorem toDouble_of_scaled {q : ℚ} {e : Int} (m : Int) (h1 : (2 : ℚ) ^ e ≤ |q|)
    (h2 : |q| < (2 : ℚ) ^ (e + 1)) (he : -1022 ≤ e) (hm : q = m * 2 ^ (e - 52)) :
    toDouble q = q := by
  rw [toDouble_eq h1 h2 he]
  have hu : (2 : ℚ) ^ (e - 52) ≠ 0 := by positivity
  have : q / 2 ^ (e - 52) = (m : ℚ) := by
    rw [hm]
    field_simp
  rw [this, roundHalfEven_intCast, ← hm]

theorem roundHalfEven_of_floor {r : ℚ} (n : Int) (h1 : (n : ℚ) ≤ r) (h2 : r - n < 1 / 2) :
    roundHalfEven r = n := by
  have hf : ⌊r⌋ = n := by
    rw [Int.floor_eq_iff]
    constructor <;> linarith
  unfold roundHalfEven
  simp only [hf, h2, if_true]

theorem roundHalfEven_of_ceil {r : ℚ} (n : Int) (h1 : r < (n : ℚ) + 1) (h2 : 1 / 2 < r - n) :
    roundHalfEven r = n + 1 := by
  have hf : ⌊r⌋ = n := by
    rw [Int.floor_eq_iff]
    constructor <;> linarith
  have h3 : ¬ r - n < 1 / 2 := by linarith
  unfold roundHalfEven
  simp only [hf, h2, h3, if_true, if_false]

theorem roundHalfEven_tie_odd {r : ℚ} (n : Int) (h1 : r = (n : ℚ) + 1 / 2) (h2 : n % 2 = 1) :
    roundHalfEven r = n + 1 := by
  have hf : ⌊r⌋ = n := by
    rw [Int.floor_eq_iff]
    constructor <;> linarith
  have h3 : ¬ r - n < 1 / 2 := by linarith
  have h4 : ¬ 1 / 2 < r - n := by linarith
  have h5 : ¬ n % 2 = 0 := by omega
  unfold roundHalfEven
  simp only [hf, h3, h4, h5, if_false]

theorem toDouble_neg_two : toDouble (-2) = -2 :=
  toDouble_of_scaled (e := 1) (-4503599627370496) (by norm_num) (by norm_num) (by norm_num)
    (by norm_num)

theorem isDouble_belowHalf : IsDouble belowHalf :=
  toDouble_of_scaled (e := -1) (-4503599627370497) (by norm_num [belowHalf, abs_of_neg])
    (by norm_num [belowHalf, abs_of_neg]) (by norm_num) (by norm_num [belowHalf])

theorem toDouble_belowHalf_sub : toDouble (belowHalf + -2) = -5 / 2 := by
  rw [toDouble_eq (e := 1) (by norm_num [belowHalf, abs_of_neg])
    (by norm_num [belowHalf, abs_of_neg]) (by norm_num)]
  rw [roundHalfEven_of_ceil (-5629499534213121) (by norm_num [belowHalf])
    (by norm_num [belowHalf])]
  norm_num

theorem isDouble_farAway : IsDouble farAway :=
  toDouble_of_scaled (e := 54) 4503599627370498 (by norm_num [farAway])
    (by norm_num [farAway]) (by norm_num) (by norm_num [farAway])

theorem toDouble_farAway_sub : toDouble (farAway + -2) = farAway := by
  rw [toDouble_eq (e := 54) (by norm_num [farAway]) (by norm_num [farAway]) (by norm_num)]
  rw [roundHalfEven_tie_odd 4503599627370497 (by norm_num [farAway]) (by norm_num)]
  norm_num [farAway]

theorem toDouble_three_fifths : toDouble 0.6 = 5404319552844595 / 9007199254740992 := by
  rw [toDouble_eq (e := -1) (by norm_num [abs_of_pos]) (by norm_num [abs_of_pos]) (by norm_num)]
  rw [roundHalfEven_of_floor 5404319552844595 (by norm_num) (by norm_num)]
  norm_num

theorem toDouble_six_fifths : toDouble 1.2 = 5404319552844595 / 4503599627370496 := by
  rw [toDouble_eq (e := 0) (by norm_num [abs_of_pos]) (by norm_num [abs_of_pos]) (by norm_num)]
  rw [roundHalfEven_of_floor 5404319552844595 (by norm_num) (by norm_num)]
  norm_num

theorem isDouble_three_fifths : IsDouble (toDouble 0.6) := by
  unfold IsDouble
  rw [toDouble_three_fifths]
  exact toDouble_of_scaled (e := -1) 5404319552844595 (by norm_num [abs_of_pos])
    (by norm_num [abs_of_pos]) (by norm_num) (by norm_num)

theorem isDouble_six_fifths : IsDouble (toDouble 1.2) := by
  unfold IsDouble
  rw [toDouble_six_fifths]
  exact toDouble_of_scaled (e := 0) 5404319552844595 (by norm_num [abs_of_pos])
    (by norm_num [abs_of_pos]) (by norm_num) (by norm_num)

theorem isDouble_zero : IsDouble 0 := toDouble_zero

theorem candidate_eq (pos : Vec3) (hx : IsDouble pos.x) (hy : IsDouble pos.y) :
    candidate pos = (mathRound pos.x, mathRound pos.y, mathRound (toDouble (pos.z - 2))) := by
  have h0 : jsMul forward.x 2 = 0 := by
    simp only [jsMul, forward, zero_mul, toDouble_zero]
  have h2 : jsMul forward.z 2 = -2 := by
    have h : (-1 : ℚ) * 2 = -2 := by norm_num
    simp only [jsMul, forward, h, toDouble_neg_two]
  have hz : pos.z + -2 = pos.z - 2 := by ring
  unfold IsDouble at hx hy
  simp only [candidate, h0, h2, jsAdd, add_zero, hx, hy, hz]

theorem candidate_origin : candidate ⟨0, 0, 0⟩ = (0, 0, -2) := by
  rw [candidate_eq ⟨0, 0, 0⟩ isDouble_zero isDouble_zero]
  have h : ((0 : ℚ) - 2) = -2 := by norm_num
  simp only [h, toDouble_neg_two, Prod.mk.injEq, mathRound_eq_iff]
  norm_num

theorem candidate_sample : candidate ⟨toDouble 0.6, toDouble 1.2, 0⟩ = (1, 1, -2) := by
  rw [candidate_eq ⟨toDouble 0.6, toDouble 1.2, 0⟩ isDouble_three_fifths isDouble_six_fifths]
  have h : ((0 : ℚ) - 2) = -2 := by norm_num
  simp only [h, toDouble_neg_two, toDouble_three_fifths, toDouble_six_fifths, Prod.mk.injEq,
    mathRound_eq_iff]
  norm_num

theorem candidate_belowHalf : candidate ⟨0, 0, belowHalf⟩ = (0, 0, -2) := by
  rw [candidate_eq ⟨0, 0, belowHalf⟩ isDouble_zero isDouble_zero]
  have h : belowHalf - 2 = belowHalf + -2 := by ring
  simp only [h, toDouble_belowHalf_sub, Prod.mk.injEq, mathRound_eq_iff]
  norm_num

theorem candidate_farAway : candidate ⟨0, 0, farAway⟩ = (0, 0, 18014398509481992) := by
  rw [candidate_eq ⟨0, 0, farAway⟩ isDouble_zero isDouble_zero]
  have h : farAway - 2 = farAway + -2 := by ring
  simp only [h, toDouble_farAway_sub, Prod.mk.injEq, mathRound_eq_iff]
  norm_num [farAway]

theorem found_iff_mem (c : BlockPosition) (b : BlockList) :
    (b.any fun bb => bb.1 == c.1 && bb.2.1 == c.2.1 && bb.2.2 == c.2.2) = true ↔ c ∈ b := by
  simp only [List.any_eq_true, Bool.and_eq_true, beq_iff_eq]
  constructor
  · rintro ⟨bb, hbb, ⟨h1, h2⟩, h3⟩
    have : bb = c := Prod.ext h1 (Prod.ext h2 h3)
    exact this ▸ hbb
  · intro h
    exact ⟨c, h, ⟨rfl, rfl⟩, rfl⟩

theorem updater_of_mem {c : BlockPosition} {b : BlockList} (h : c ∈ b) : updater c b = b := by
  unfold updater
  simp only [(found_iff_mem c b).mpr h, if_true]

theorem updater_of_not_mem {c : BlockPosition} {b : BlockList} (h : c ∉ b) :
    updater c b = b ++ [c] := by
  unfold updater
  have : ¬ (b.any fun bb => bb.1 == c.1 && bb.2.1 == c.2.1 && bb.2.2 == c.2.2) = true :=
    fun hf => h ((found_iff_mem c b).mp hf)
  simp only [this, if_false]
  rfl

theorem updater_nodup {c : BlockPosition} {b : BlockList} (h : b.Nodup) :
    (updater c b).Nodup := by
  by_cases hc : c ∈ b
  · rw [updater_of_mem hc]
    exact h
  · rw [updater_of_not_mem hc]
    exact List.Nodup.append h (List.nodup_singleton c) (by simpa using hc)

theorem updater_idem (c : BlockPosition) (b : BlockList) :
    updater c (updater c b) = updater c b := by
  apply updater_of_mem
  by_cases hc : c ∈ b
  · rw [updater_of_mem hc]
    exact hc
  · rw [updater_of_not_mem hc]
    simp

theorem placeCallback_some (mesh : Object3D) (b : BlockList) :
    placeCallback ⟨some mesh⟩ b = .ok (updater (candidate mesh.position) b) := rfl

theorem placeCallback_none (b : BlockList) : placeCallback ⟨none⟩ b = .ok b := rfl

theorem onPlace_ok (canPlaceRef : Option RegisteredFn) (b : BlockList) :
    onPlace canPlaceRef b = .ok b := by
  cases canPlaceRef <;> rfl

theorem trigger_run_nodup (t : Trigger) {b : BlockList} (h : b.Nodup) :
    ∃ b', t.run b = .ok b' ∧ b'.Nodup := by
  cases t with
  | pointerDown canPlaceRef => exact ⟨b, onPlace_ok canPlaceRef b, h⟩
  | callback playerRef =>
    obtain ⟨cur⟩ := playerRef
    cases cur with
    | none => exact ⟨b, rfl, h⟩
    | some mesh => exact ⟨updater (candidate mesh.position) b, rfl, updater_nodup h⟩

theorem runTriggers_nodup (ts : List Trigger) :
    ∀ {b : BlockList}, b.Nodup → ∃ b', runTriggers ts b = .ok b' ∧ b'.Nodup := by
  induction ts with
  | nil => intro b h; exact ⟨b, rfl, h⟩
  | cons t ts ih =>
    intro b h
    obtain ⟨b₁, h₁, hn₁⟩ := trigger_run_nodup t h
    obtain ⟨b₂, h₂, hn₂⟩ := ih hn₁
    refine ⟨b₂, ?_, hn₂⟩
    simp only [runTriggers, h₁, h₂]

theorem isPressed_set (ks : KeyState) (code c : String) (value : Bool) :
    isPressed (ks.set code value) c = if c = code then value else isPressed ks c := by
  unfold isPressed KeyState.set
  by_cases h : c = code
  · simp only [h, if_true]
    cases value <;> rfl
  · simp only [h, if_false]

theorem isPressed_handleKey_other (ks : KeyState) (e : KeyEvent) (c : String)
    (h : e.code ≠ c) : isPressed (handleKey ks e) c = isPressed ks c := by
  have h' : ¬ c = e.code := fun hc => h hc.symm
  cases e <;> simp only [handleKey, isPressed_set, KeyEvent.code] at * <;> simp only [h', if_false]

theorem handleKey_idem (ks : KeyState) (e : KeyEvent) :
    handleKey (handleKey ks e) e = handleKey ks e := by
  funext k
  cases e <;> simp only [handleKey, KeyState.set] <;> split <;> rfl

theorem applyEvents_append (ks : KeyState) (evs : List KeyEvent) (e : KeyEvent) :
    applyEvents ks (evs ++ [e]) = handleKey (applyEvents ks evs) e := by
  simp only [applyEvents, List.foldl_append, List.foldl_cons, List.foldl_nil]

theorem eventsFor_append (evs : List KeyEvent) (e : KeyEvent) (c : String) :
    eventsFor (evs ++ [e]) c = if e.code = c then eventsFor evs c ++ [e] else eventsFor evs c := by
  unfold eventsFor
  by_cases h : e.code = c
  · simp [List.filter_append, h]
  · simp [List.filter_append, h]

theorem isPressed_applyEvents (ks : KeyState) (evs : List KeyEvent) (c : String) :
    isPressed (applyEvents ks evs) c =
      match (eventsFor evs c).getLast? with
      | some (.keydown _) => true
      | some (.keyup _) => false
      | none => isPressed ks c := by
  induction evs using List.reverseRecOn with
  | nil => rfl
  | append_singleton evs e ih =>
    rw [applyEvents_append, eventsFor_append]
    by_cases h : e.code = c
    · simp only [h, if_true, List.getLast?_append, List.getLast?_singleton]
      cases e with
      | keydown k =>
        have hk : k = c := h
        simp only [handleKey, isPressed_set, hk, if_true]
        rfl
      | keyup k =>
        have hk : k = c := h
        simp only [handleKey, isPressed_set, hk, if_true]
        rfl
    · simp only [h, if_false]
      rw [isPressed_handleKey_other _ _ _ h, ih]

theorem frame_velocity (keys : KeyState) (v : Vec3) :
    (frame keys v).velocity =
      ⟨(if isPressed keys "KeyD" then 4 else 0) - (if isPressed keys "KeyA" then 4 else 0),
       v.y,
       (if isPressed keys "KeyS" then 4 else 0) - (if isPressed keys "KeyW" then 4 else 0)⟩ := by
  unfold frame
  cases isPressed keys "KeyW" <;> cases isPressed keys "KeyS" <;>
    cases isPressed keys "KeyA" <;> cases isPressed keys "KeyD" <;> norm_num

theorem frame_impulses (keys : KeyState) (v : Vec3) :
    (frame keys v).impulses =
      if isPressed keys "Space" = true ∧ |v.y| < 0.05 then [(⟨0, 5, 0⟩, ⟨0, 0, 0⟩)] else [] := by
  unfold frame
  by_cases h1 : isPressed keys "Space" = true <;> by_cases h2 : |v.y| < 0.05 <;> simp [h1, h2]

/-! ## Placement: the claims -/

/-- C1 (counterexample): at the double position `(0, 0, -0.5000000000000001)`
the sum of line 101 rounds to the double `-2.5`, so the candidate cell is
`(0, 0, -2)`, whereas `round (z - 2)` on the exact difference is `-3`. -/
theorem candidate_not_round_of_exact_difference :
    Vec3.IsDouble ⟨0, 0, belowHalf⟩
    ∧ candidate ⟨0, 0, belowHalf⟩ = (0, 0, -2)
    ∧ mathRound (belowHalf - 2) = -3
    ∧ candidate ⟨0, 0, belowHalf⟩ ≠ (mathRound 0, mathRound 0, mathRound (belowHalf - 2)) := by
  have h3 : mathRound (belowHalf - 2) = -3 := by
    rw [mathRound_eq_iff]
    norm_num [belowHalf]
  refine ⟨⟨isDouble_zero, isDouble_zero, isDouble_belowHalf⟩, candidate_belowHalf, h3, ?_⟩
  rw [candidate_belowHalf, h3]
  intro h
  have h2 : (-2 : Int) = -3 := congrArg (fun c : BlockPosition => c.2.2) h
  exact absurd h2 (by decide)

/-- C1 (amended): for every player position with double coordinates the
candidate cell is `(round x, round y, round s)`, where `s` is the double nearest
to `z - 2` (the sum of line 101 as the language computes it) and `round` gives a
nearest integer (no integer is closer to the value); when `z - 2` is itself a
double the cell is `(round x, round y, round (z - 2))`; the forward vector is
the constant `(0, 0, -1)`; position `(0.6, 1.2, 0)` gives `(1, 1, -2)` and the
origin gives `(0, 0, -2)`. -/
theorem candidate_rounds_double_offset (pos : Vec3) (hpos : pos.IsDouble) :
    candidate pos = (mathRound pos.x, mathRound pos.y, mathRound (toDouble (pos.z - 2)))
    ∧ (IsDouble (pos.z - 2) →
        candidate pos = (mathRound pos.x, mathRound pos.y, mathRound (pos.z - 2)))
    ∧ forward = ⟨0, 0, -1⟩
    ∧ (∀ (q : ℚ) (n : Int), |(mathRound q : ℚ) - q| ≤ |(n : ℚ) - q|)
    ∧ candidate ⟨toDouble 0.6, toDouble 1.2, 0⟩ = (1, 1, -2)
    ∧ candidate ⟨0, 0, 0⟩ = (0, 0, -2) := by
  refine ⟨candidate_eq pos hpos.1 hpos.2.1, ?_, rfl, mathRound_nearest, candidate_sample,
    candidate_origin⟩
  intro hz
  rw [candidate_eq pos hpos.1 hpos.2.1, hz]

/-- C1 (amended), at a concrete input: the position `(0, 0, -0.5000000000000001)`
has double coordinates and its cell is `(round 0, round 0, round s)` with `s`
the double nearest to `z - 2`. -/
theorem candidate_rounds_double_offset_witness :
    Vec3.IsDouble ⟨0, 0, belowHalf⟩
    ∧ candidate ⟨0, 0, belowHalf⟩
        = (mathRound 0, mathRound 0, mathRound (toDouble (belowHalf - 2))) :=
  ⟨⟨isDouble_zero, isDouble_zero, isDouble_belowHalf⟩,
   (candidate_rounds_double_offset ⟨0, 0, belowHalf⟩
      ⟨isDouble_zero, isDouble_zero, isDouble_belowHalf⟩).1⟩

/-- C2: the `setBlocks` updater returns `b` itself when some entry of `b` equals
the candidate on all three components and otherwise `b` with the candidate as the
single new last entry; `b` is always a prefix of the result and the length grows
by 0 or 1. -/
theorem updater_append_only (b : BlockList) (c : BlockPosition) :
    ((∃ bb ∈ b, bb.1 = c.1 ∧ bb.2.1 = c.2.1 ∧ bb.2.2 = c.2.2) → updater c b = b)
    ∧ ((¬ ∃ bb ∈ b, bb.1 = c.1 ∧ bb.2.1 = c.2.1 ∧ bb.2.2 = c.2.2) → updater c b = b ++ [c])
    ∧ b <+: updater c b
    ∧ ((updater c b).length = b.length ∨ (updater c b).length = b.length + 1) := by
  have key : (∃ bb ∈ b, bb.1 = c.1 ∧ bb.2.1 = c.2.1 ∧ bb.2.2 = c.2.2) ↔ c ∈ b := by
    constructor
    · rintro ⟨bb, hbb, h1, h2, h3⟩
      have : bb = c := Prod.ext h1 (Prod.ext h2 h3)
      exact this ▸ hbb
    · intro h
      exact ⟨c, h, rfl, rfl, rfl⟩
  rw [key]
  refine ⟨updater_of_mem, updater_of_not_mem, ?_, ?_⟩
  · by_cases hc : c ∈ b
    · rw [updater_of_mem hc]
    · rw [updater_of_not_mem hc]
      exact List.prefix_append b [c]
  · by_cases hc : c ∈ b
    · left
      rw [updater_of_mem hc]
    · right
      rw [updater_of_not_mem hc]
      simp

/-- C2, at a concrete list: a cell already present leaves the seeded list as it
is, a new cell becomes its last entry. -/
theorem updater_append_only_witness :
    updater (3, 0, -1) initialBlocks = initialBlocks
    ∧ updater (0, 0, -2) initialBlocks = initialBlocks ++ [(0, 0, -2)] :=
  ⟨(updater_append_only initialBlocks (3, 0, -1)).1 ⟨(3, 0, -1), by decide, rfl, rfl, rfl⟩,
   (updater_append_only initialBlocks (0, 0, -2)).2.1 (by decide)⟩

/-- C3: the seeded block list has no duplicate entry, and every sequence of
placement steps from it (pointer-downs with any content of `canPlaceRef`, runs
of the placement callback from any player position) ends without error in a
list whose entries are pairwise distinct. -/
theorem blocks_never_duplicate (ts : List Trigger) :
    initialBlocks.Nodup
    ∧ ∃ b, runTriggers ts initialBlocks = .ok b ∧ b.Nodup := by
  have h0 : initialBlocks.Nodup := by decide
  exact ⟨h0, runTriggers_nodup ts h0⟩

/-- C4 (the code at the failing input): with the player mounted at `(0, 0, 0)` and
its function registered, a pointer-down leaves the seeded list at its five
entries, the second one as well, whereas running the placement callback on the
player ref appends `(0, 0, -2)` and gives six entries. -/
theorem onPlace_registered_places_nothing :
    onPlace (setCanPlaceBlock ⟨some ⟨⟨0, 0, 0⟩⟩⟩) initialBlocks = .ok initialBlocks
    ∧ runTriggers [.pointerDown (setCanPlaceBlock ⟨some ⟨⟨0, 0, 0⟩⟩⟩),
        .pointerDown (setCanPlaceBlock ⟨some ⟨⟨0, 0, 0⟩⟩⟩)] initialBlocks = .ok initialBlocks
    ∧ initialBlocks.length = 5
    ∧ handOver ⟨some ⟨⟨0, 0, 0⟩⟩⟩ placeCallback initialBlocks
        = .ok (initialBlocks ++ [(0, 0, -2)])
    ∧ (initialBlocks ++ [(0, 0, -2)]).length = 6 := by
  refine ⟨rfl, rfl, rfl, ?_, rfl⟩
  show placeCallback ⟨some ⟨⟨0, 0, 0⟩⟩⟩ initialBlocks = _
  rw [placeCallback_some, candidate_origin]
  rfl

/-- C8: when no function has been registered in `canPlaceRef`, or the registered
player ref holds `null`, `onPlace` ends without error and leaves the block list
unchanged; so does the placement callback itself on a ref that holds `null`. -/
theorem onPlace_without_player_is_noop (b : BlockList) :
    onPlace none b = .ok b
    ∧ onPlace (setCanPlaceBlock ⟨none⟩) b = .ok b
    ∧ handOver ⟨none⟩ placeCallback b = .ok b :=
  ⟨rfl, rfl, rfl⟩

/-- C9: before any placement the block list is the five seeded cells, in order. -/
theorem initialBlocks_seeded :
    initialBlocks = [(-1, 0, 0), (1, 0, 0), (3, 0, -1), (-3, 0, -2), (0, 1, -5)]
    ∧ runTriggers [] initialBlocks = .ok initialBlocks
    ∧ initialBlocks.length = 5 :=
  ⟨rfl, rfl, rfl⟩

/-- C10 (counterexample): at the double position `(0, 0, -0.5000000000000001)`
the candidate cell is `(0, 0, -2)`, so `z - cz` is below 3/2 and the point
`(0, 0, -3/2)` of the cell's cube is less than 1 from the player's centre along
`z`; at the double position `(0, 0, 2^54 + 8)` the candidate cell is the
player's own cell and the player's centre lies in the cube and in the sphere. -/
theorem candidate_cube_can_reach_player :
    Vec3.IsDouble ⟨0, 0, belowHalf⟩
    ∧ ¬ (3 / 2 ≤ belowHalf - ((candidate ⟨0, 0, belowHalf⟩).2.2 : ℚ))
    ∧ inBlock (candidate ⟨0, 0, belowHalf⟩) ⟨0, 0, -3 / 2⟩
    ∧ ¬ (1 ≤ belowHalf - (⟨0, 0, -3 / 2⟩ : Vec3).z)
    ∧ Vec3.IsDouble ⟨0, 0, farAway⟩
    ∧ inBlock (candidate ⟨0, 0, farAway⟩) ⟨0, 0, farAway⟩
    ∧ inPlayer ⟨0, 0, farAway⟩ ⟨0, 0, farAway⟩ := by
  rw [candidate_belowHalf, candidate_farAway]
  refine ⟨⟨isDouble_zero, isDouble_zero, isDouble_belowHalf⟩, ?_, ?_, ?_,
    ⟨isDouble_zero, isDouble_zero, isDouble_farAway⟩, ?_, ?_⟩
  · norm_num [belowHalf]
  · simp only [inBlock, blockArgs]
    norm_num [abs_le]
  · norm_num [belowHalf]
  · simp only [inBlock, blockArgs, farAway]
    norm_num
  · simp only [inPlayer, playerRadius]
    norm_num

/-- C10 (amended): for every player position with double coordinates the
candidate cell is within 1/2 of the player in `x` and `y`, and
`3/2 - u/2 ≤ z - cz < 5/2 + u/2`, where `u` is the spacing of the doubles around
`z - 2`; when `z - 2` is itself a double, `3/2 ≤ z - cz < 5/2` and every point
of the cell's unit cube is at least 1 from the player's centre along `z`; when
`|z| ≤ 2^51`, every point of the cube is at least 3/4 from the player's centre
along `z` and no point of the cube is in the player's sphere of radius 1/2. -/
theorem candidate_clear_of_player_in_range (pos : Vec3) (hpos : pos.IsDouble) :
    |((candidate pos).1 : ℚ) - pos.x| ≤ 1 / 2
    ∧ |((candidate pos).2.1 : ℚ) - pos.y| ≤ 1 / 2
    ∧ 3 / 2 - ulp (pos.z - 2) / 2 ≤ pos.z - ((candidate pos).2.2 : ℚ)
    ∧ pos.z - ((candidate pos).2.2 : ℚ) < 5 / 2 + ulp (pos.z - 2) / 2
    ∧ (IsDouble (pos.z - 2) →
        3 / 2 ≤ pos.z - ((candidate pos).2.2 : ℚ)
        ∧ pos.z - ((candidate pos).2.2 : ℚ) < 5 / 2
        ∧ ∀ q : Vec3, inBlock (candidate pos) q → 1 ≤ pos.z - q.z)
    ∧ (|pos.z| ≤ 2 ^ 51 →
        (∀ q : Vec3, inBlock (candidate pos) q → 3 / 4 ≤ pos.z - q.z)
        ∧ ∀ q : Vec3, inBlock (candidate pos) q → ¬ inPlayer pos q) := by
  rw [candidate_eq pos hpos.1 hpos.2.1]
  have hz1 := mathRound_le (toDouble (pos.z - 2))
  have hz2 := lt_mathRound_add_one (toDouble (pos.z - 2))
  have herr := abs_le.mp (abs_toDouble_sub_le (pos.z - 2))
  have top : ∀ q : Vec3,
      inBlock (mathRound pos.x, mathRound pos.y, mathRound (toDouble (pos.z - 2))) q →
      q.z ≤ (mathRound (toDouble (pos.z - 2)) : ℚ) + 1 / 2 := by
    intro q hq
    have h3 := (abs_le.mp hq.2.2).2
    simp only [blockArgs] at h3
    linarith
  refine ⟨abs_mathRound_sub_le _, abs_mathRound_sub_le _, by linarith [herr.1, herr.2],
    by linarith [herr.1, herr.2], ?_, ?_⟩
  · intro hz
    unfold IsDouble at hz
    rw [hz] at hz1 hz2 top
    rw [hz]
    refine ⟨by linarith, by linarith, ?_⟩
    intro q hq
    have := top q hq
    linarith
  · intro hbound
    have habs : |pos.z - 2| < 2 ^ 52 := by
      have h1 := abs_le.mp hbound
      rw [abs_lt]
      constructor <;> norm_num at h1 ⊢ <;> linarith [h1.1, h1.2]
    have hu := ulp_le_half habs
    have far : ∀ q : Vec3,
        inBlock (mathRound pos.x, mathRound pos.y, mathRound (toDouble (pos.z - 2))) q →
        3 / 4 ≤ pos.z - q.z := by
      intro q hq
      have := top q hq
      linarith [herr.1, herr.2]
    refine ⟨far, ?_⟩
    intro q hq hin
    have h1 := far q hq
    unfold inPlayer playerRadius at hin
    nlinarith [sq_nonneg (q.x - pos.x), sq_nonneg (q.y - pos.y), sq_nonneg (q.z - pos.z + 3 / 4)]

/-- C10 (amended), at a concrete input: the origin has double coordinates and is
within `2^51` of zero along `z`; its candidate is `(0, 0, -2)`, whose centre is
a point of its cube and lies 2 behind the player along `z`. -/
theorem candidate_clear_of_player_in_range_witness :
    Vec3.IsDouble ⟨0, 0, 0⟩ ∧ |(⟨0, 0, 0⟩ : Vec3).z| ≤ 2 ^ 51
    ∧ (3 : ℚ) / 4 ≤ (⟨0, 0, 0⟩ : Vec3).z - (⟨0, 0, -2⟩ : Vec3).z :=
  ⟨⟨isDouble_zero, isDouble_zero, isDouble_zero⟩, by norm_num,
   ((candidate_clear_of_player_in_range ⟨0, 0, 0⟩
      ⟨isDouble_zero, isDouble_zero, isDouble_zero⟩).2.2.2.2.2 (by norm_num)).1 ⟨0, 0, -2⟩ (by
    rw [candidate_origin]
    simp only [inBlock, blockArgs]
    norm_num)⟩

/-! ## Keys and the per-frame controller: the claims -/

/-- C5: the velocity written back is `(dx, v.y, dz)` with `dx` = (4 if KeyD) -
(4 if KeyA) and `dz` = (4 if KeyS) - (4 if KeyW); the vertical component is the
cached `v.y`, also in a step that applies the jump impulse; exactly forward and
left held give `(-4, v.y, -4)`; two opposing keys give 0 on their axis. -/
theorem frame_velocity_writeback (keys : KeyState) (v : Vec3) :
    (frame keys v).velocity =
      ⟨(if isPressed keys "KeyD" then 4 else 0) - (if isPressed keys "KeyA" then 4 else 0),
       v.y,
       (if isPressed keys "KeyS" then 4 else 0) - (if isPressed keys "KeyW" then 4 else 0)⟩
    ∧ (frame keys v).velocity.y = v.y
    ∧ ((frame keys v).impulses ≠ [] → (frame keys v).velocity.y = v.y)
    ∧ (isPressed keys "KeyW" = true ∧ isPressed keys "KeyA" = true
        ∧ isPressed keys "KeyS" = false ∧ isPressed keys "KeyD" = false →
        (frame keys v).velocity = ⟨-4, v.y, -4⟩)
    ∧ (isPressed keys "KeyW" = true ∧ isPressed keys "KeyS" = true →
        (frame keys v).velocity.z = 0)
    ∧ (isPressed keys "KeyA" = true ∧ isPressed keys "KeyD" = true →
        (frame keys v).velocity.x = 0) := by
  rw [frame_velocity]
  refine ⟨rfl, rfl, fun _ => rfl, ?_, ?_, ?_⟩
  · rintro ⟨hw, ha, hs, hd⟩
    simp only [hw, ha, hs, hd]
    norm_num
  · rintro ⟨hw, hs⟩
    simp only [hw, hs]
    norm_num
  · rintro ⟨ha, hd⟩
    simp only [ha, hd]
    norm_num

/-- C5, at a concrete input: after keydown of KeyW, KeyA and Space, with cached
velocity `(1, 0, 3)`, the jump impulse is applied and the velocity written back
is `(-4, 0, -4)`. -/
theorem frame_velocity_writeback_witness :
    (frame (applyEvents KeyState.empty [.keydown "KeyW", .keydown "KeyA", .keydown "Space"])
        ⟨1, 0, 3⟩).velocity = ⟨-4, 0, -4⟩ :=
  (frame_velocity_writeback
    (applyEvents KeyState.empty [.keydown "KeyW", .keydown "KeyA", .keydown "Space"])
    ⟨1, 0, 3⟩).2.2.2.1 (by decide)

/-- C6: one step applies the impulse `(0, 5, 0)` at `(0, 0, 0)` exactly when
Space is held and `|v.y| < 0.05` (strictly); otherwise it applies none; it never
applies more than one. -/
theorem frame_jump_iff (keys : KeyState) (v : Vec3) :
    ((frame keys v).impulses = [(⟨0, 5, 0⟩, ⟨0, 0, 0⟩)]
        ↔ isPressed keys "Space" = true ∧ |v.y| < 0.05)
    ∧ ((frame keys v).impulses = []
        ↔ ¬ (isPressed keys "Space" = true ∧ |v.y| < 0.05))
    ∧ (frame keys v).impulses.length ≤ 1
    ∧ (frame (KeyState.empty.set "Space" true) ⟨0, 0.05, 0⟩).impulses = []
    ∧ (frame (KeyState.empty.set "Space" true) ⟨0, -0.04, 0⟩).impulses
        = [(⟨0, 5, 0⟩, ⟨0, 0, 0⟩)] := by
  refine ⟨?_, ?_, ?_, ?_, ?_⟩
  · rw [frame_impulses]
    by_cases h : isPressed keys "Space" = true ∧ |v.y| < 0.05
    · rw [if_pos h]
      exact ⟨fun _ => h, fun _ => rfl⟩
    · rw [if_neg h]
      exact ⟨fun hc => List.noConfusion hc, fun hc => absurd hc h⟩
  · rw [frame_impulses]
    by_cases h : isPressed keys "Space" = true ∧ |v.y| < 0.05
    · rw [if_pos h]
      exact ⟨fun hc => List.noConfusion hc, fun hc => absurd h hc⟩
    · rw [if_neg h]
      exact ⟨fun _ => h, fun _ => rfl⟩
  · rw [frame_impulses]
    split <;> simp
  · rw [frame_impulses, if_neg]
    rintro ⟨-, h⟩
    rw [abs_lt] at h
    norm_num at h
  · rw [frame_impulses, if_pos]
    refine ⟨by decide, ?_⟩
    rw [abs_lt]
    norm_num

/-- C7: after any sequence of key events from the empty key state, the code `c`
reads as pressed exactly when the sequence has an event for `c` and the last
such event is a keydown; a code with no event reads as not pressed; an event for
another code does not change the reading of `c`; handling the same event again
changes nothing. -/
theorem isPressed_last_event_wins (evs : List KeyEvent) (c : String) :
    (isPressed (applyEvents KeyState.empty evs) c = true
        ↔ (eventsFor evs c).getLast? = some (.keydown c))
    ∧ ((∀ e ∈ evs, e.code ≠ c) → isPressed (applyEvents KeyState.empty evs) c = false)
    ∧ (∀ (ks : KeyState) (e : KeyEvent), e.code ≠ c →
        isPressed (handleKey ks e) c = isPressed ks c)
    ∧ (∀ (ks : KeyState) (e : KeyEvent), handleKey (handleKey ks e) e = handleKey ks e) := by
  have hmem : ∀ e, (eventsFor evs c).getLast? = some e → e.code = c := by
    intro e he
    have := List.mem_of_getLast?_eq_some he
    have h2 := (List.mem_filter.mp this).2
    exact beq_iff_eq.mp h2
  refine ⟨?_, ?_, fun ks e h => isPressed_handleKey_other ks e c h, handleKey_idem⟩
  · rw [isPressed_applyEvents]
    cases hl : (eventsFor evs c).getLast? with
    | none => simp [isPressed, KeyState.empty]
    | some e =>
      have hc := hmem e hl
      cases e with
      | keydown k =>
        have hk : k = c := hc
        simp [hk]
      | keyup k => simp
  · intro hno
    rw [isPressed_applyEvents]
    have hnil : eventsFor evs c = [] := by
      unfold eventsFor
      rw [List.filter_eq_nil_iff]
      intro e he
      simpa using hno e he
    rw [hnil]
    rfl

/-- C7, at a concrete input: down, up, (other key) down, down again for KeyW
reads as pressed, KeyA, whose last event is a keyup, and Space, never seen, as
not pressed. -/
theorem isPressed_last_event_wins_witness :
    isPressed (applyEvents KeyState.empty
        [.keydown "KeyW", .keyup "KeyW", .keydown "KeyA", .keydown "KeyW", .keyup "KeyA"])
      "Space" = false :=
  (isPressed_last_event_wins
    [.keydown "KeyW", .keyup "KeyW", .keydown "KeyA", .keydown "KeyW", .keyup "KeyA"]
    "Space").2.1 (by decide)

end Plat
